import Mathlib

/-!
Verification of the GitHub-to-Jira issue creation utilities.

The development shallowly embeds the JavaScript modules of the repository:

* the ADF (Atlassian Document Format) builder module (`textToADF`,
  `createFormattedADF`, `createBulletListADF`, `createOrderedListADF`,
  `createHeadingWithContentADF`, `createCodeBlockADF`, `createLinkADF`,
  `combineADFContent`, `isValidADF`);
* the label/priority/component classifier module
  (`mapGitHubLabelsToJiraIssueType`, `mapPriority`,
  `mapGitHubIssueToJiraFields`);
* the issue assembler (`createGitHubIssueADF` and the description-coercion
  step of `createIssue`).

JavaScript values that the code inspects dynamically are embedded as the
JSON-value type `JVal`; strings are Lean `String`s, with the handful of
JavaScript string primitives the code relies on (`split`, `trim`,
`toLowerCase`, `includes`, and the `^\s*TAG\s*$` multiline regex test)
modelled explicitly over `List Char` below.
-/

/-- Character class of the JavaScript regex `\s` and of `String.prototype.trim`:
tab, line feed, vertical tab, form feed, carriage return, space, NBSP, the
Unicode space separators, the line/paragraph separators, narrow NBSP, medium
mathematical space, ideographic space and the BOM. -/
def isJsSpaceChar (c : Char) : Bool :=
  c.toNat == 0x9 || c.toNat == 0xA || c.toNat == 0xB || c.toNat == 0xC ||
  c.toNat == 0xD || c.toNat == 0x20 || c.toNat == 0xA0 || c.toNat == 0x1680 ||
  (0x2000 ≤ c.toNat && c.toNat ≤ 0x200A) ||
  c.toNat == 0x2028 || c.toNat == 0x2029 || c.toNat == 0x202F ||
  c.toNat == 0x205F || c.toNat == 0x3000 || c.toNat == 0xFEFF

/-- Line terminators of a JavaScript multiline (`m` flag) regex: line feed,
carriage return, line separator, paragraph separator. -/
def isLineTermChar (c : Char) : Bool :=
  c.toNat == 0xA || c.toNat == 0xD || c.toNat == 0x2028 || c.toNat == 0x2029

/-- Splitting a character list at every character satisfying `p`, keeping the
(possibly empty) fragments between separators: the semantics of
`String.prototype.split` with a one-character separator. The result is never
empty; splitting the empty list yields `[[]]`, as `"".split` yields `[""]`. -/
def splitListOn (p : Char → Bool) : List Char → List (List Char)
  | [] => [[]]
  | c :: cs =>
    if p c then [] :: splitListOn p cs
    else
      match splitListOn p cs with
      | [] => [[c]]
      | l :: ls => (c :: l) :: ls

/-- Leading and trailing JS whitespace removed: `String.prototype.trim` over a
character list. -/
def trimJs (l : List Char) : List Char :=
  ((l.dropWhile isJsSpaceChar).reverse.dropWhile isJsSpaceChar).reverse

/-- The JavaScript `text.split("\n")` as a list of strings. -/
def jsSplitNewline (s : String) : List String :=
  (splitListOn (fun c => c == '\n') s.data).map (fun l => String.mk l)

/-- The JavaScript `line.trim()` on strings. -/
def jsTrimS (s : String) : String :=
  String.mk (trimJs s.data)

/-- The JavaScript `s.toLowerCase()` (character-wise lowering; the code only
compares against ASCII needles). -/
def jsToLower (s : String) : String :=
  String.mk (s.data.map Char.toLower)

/-- Whether `hay` starts with `needle` (over character lists). -/
def listStartsWith (needle hay : List Char) : Bool :=
  match needle, hay with
  | [], _ => true
  | _ :: _, [] => false
  | a :: as, b :: bs => a == b && listStartsWith as bs

/-- Whether `needle` occurs contiguously in `hay`: the JavaScript
`hay.includes(needle)` over character lists. -/
def containsSub (needle : List Char) : List Char → Bool
  | [] => listStartsWith needle []
  | c :: rest => listStartsWith needle (c :: rest) || containsSub needle rest

/-- The JavaScript `hay.includes(needle)` on strings. -/
def jsIncludes (hay needle : String) : Bool :=
  containsSub needle.data hay.data

/-- JSON values: the dynamic JavaScript values the modules build and inspect.
`jnull` stands for both `null` and `undefined` (the code never distinguishes
them: it only tests truthiness, `typeof x === "object"` — which `null`
satisfies — and `x != null`, which excludes both). -/
inductive JVal where
  | jnull : JVal
  | jbool : Bool → JVal
  | jnum : Int → JVal
  | jstr : String → JVal
  | jarr : List JVal → JVal
  | jobj : List (String × JVal) → JVal

/-- Property access `fields[key]` on a plain JSON object (keys are unique in
every object the code builds or parses). -/
def jlookup (key : String) : List (String × JVal) → Option JVal
  | [] => none
  | (k, v) :: rest => if k = key then some v else jlookup key rest

/-- JavaScript truthiness of a JSON value. -/
def jsTruthy : JVal → Bool
  | .jnull => false
  | .jbool b => b
  | .jnum n => !(n == 0)
  | .jstr s => !(s == "")
  | .jarr _ => true
  | .jobj _ => true

/-- The JavaScript test `typeof v === "object"` (true for `null`, arrays and
plain objects). -/
def jsTypeofIsObject : JVal → Bool
  | .jnull => true
  | .jarr _ => true
  | .jobj _ => true
  | _ => false

/-- Whether a JSON value is JavaScript `null`/`undefined` (the loose test
`v == null`). -/
def isNullJ : JVal → Bool
  | .jnull => true
  | _ => false

/-- Text node object literal of the ADF builders:
`\x7btype: "text", text: t\x7d`. -/
def textNode (t : String) : JVal :=
  .jobj [("type", .jstr "text"), ("text", .jstr t)]

/-- Paragraph object literal of the ADF builders:
`\x7btype: "paragraph", content: nodes\x7d`. -/
def paragraphOf (nodes : List JVal) : JVal :=
  .jobj [("type", .jstr "paragraph"), ("content", .jarr nodes)]

/-- Document object literal of the ADF builders:
`\x7btype: "doc", version: 1, content: blocks\x7d`. -/
def mkDoc (content : List JVal) : JVal :=
  .jobj [("type", .jstr "doc"), ("version", .jnum 1), ("content", .jarr content)]

/-- Embeds `textToADF` of the ADF utility module: empty or non-string input
yields an empty document; otherwise the text is split on `"\n"`, lines that
trim to the empty string are discarded, each retained line becomes one
paragraph holding one text node carrying the trimmed line; and when every line
was discarded the whole raw text is wrapped in a single paragraph. -/
def textToADF (text : JVal) : JVal :=
  match text with
  | .jstr s =>
    if s = "" then mkDoc []
    else
      let paragraphs := (jsSplitNewline s).filter (fun line => jsTrimS line ≠ "")
      let content := paragraphs.map (fun paragraph => paragraphOf [textNode (jsTrimS paragraph)])
      mkDoc (if content.length > 0 then content else [paragraphOf [textNode s]])
  | _ => mkDoc []

/-- Input shape of `createFormattedADF`: a node `\x7btext, marks?\x7d`, where a
present-and-truthy `marks` array is spread into the output node. A `marks`
field that is absent or `null` is `none`. -/
structure TextNodeInput where
  text : String
  marks : Option (List JVal)

/-- Embeds `createFormattedADF`: a single paragraph wrapping the given text
nodes, each node keeping its `marks` array only when one was supplied. -/
def createFormattedADF (textNodes : List TextNodeInput) : JVal :=
  mkDoc [paragraphOf (textNodes.map (fun node =>
    .jobj (("type", JVal.jstr "text") :: ("text", JVal.jstr node.text) ::
      (match node.marks with
       | some ms => [("marks", JVal.jarr ms)]
       | none => []))))]

/-- List item object of the two list builders: listItem → paragraph → text,
with the raw item value in the `text` field. -/
def listItemOf (item : JVal) : JVal :=
  .jobj [("type", .jstr "listItem"),
         ("content", .jarr [.jobj [("type", .jstr "paragraph"),
           ("content", .jarr [.jobj [("type", .jstr "text"), ("text", item)]])]])]

/-- Embeds `createBulletListADF`: a non-array or empty input degrades to
`textToADF("")`; otherwise one `bulletList` block with one list item per entry. -/
def createBulletListADF (items : JVal) : JVal :=
  match items with
  | .jarr its =>
    if its.length = 0 then textToADF (.jstr "")
    else mkDoc [.jobj [("type", .jstr "bulletList"),
      ("content", .jarr (its.map listItemOf))]]
  | _ => textToADF (.jstr "")

/-- Embeds `createOrderedListADF`: as the bullet list, with an `orderedList`
block. -/
def createOrderedListADF (items : JVal) : JVal :=
  match items with
  | .jarr its =>
    if its.length = 0 then textToADF (.jstr "")
    else mkDoc [.jobj [("type", .jstr "orderedList"),
      ("content", .jarr (its.map listItemOf))]]
  | _ => textToADF (.jstr "")

/-- Embeds `createHeadingWithContentADF`: the level is clamped into `[1, 6]`
by `Math.max(1, Math.min(6, level))`, and a trailing paragraph is appended
only for truthy (non-empty) content. -/
def createHeadingWithContentADF (headingText : String) (level : Int) (content : String) : JVal :=
  mkDoc ([.jobj [("type", .jstr "heading"),
                 ("attrs", .jobj [("level", .jnum (max 1 (min 6 level)))]),
                 ("content", .jarr [textNode headingText])]] ++
    (if content ≠ "" then [paragraphOf [textNode content]] else []))

/-- Embeds `createCodeBlockADF`: one `codeBlock` whose `attrs` carry the
language only when one was supplied (truthy string). -/
def createCodeBlockADF (code : String) (language : String) : JVal :=
  mkDoc [.jobj [("type", .jstr "codeBlock"),
    ("attrs", if language ≠ "" then JVal.jobj [("language", JVal.jstr language)] else JVal.jobj []),
    ("content", .jarr [textNode code])]]

/-- Embeds `createLinkADF`: one paragraph holding one text node annotated with
a `link` mark whose `attrs.href` is the url. -/
def createLinkADF (text : String) (url : String) : JVal :=
  mkDoc [paragraphOf [.jobj [("type", .jstr "text"), ("text", .jstr text),
    ("marks", .jarr [.jobj [("type", .jstr "link"),
      ("attrs", .jobj [("href", .jstr url)])]])]]]

/-- Embeds `combineADFContent`: the blocks with `null`/`undefined` entries
filtered out (`block != null`), wrapped in one document. -/
def combineADFContent (contentBlocks : List JVal) : JVal :=
  mkDoc (contentBlocks.filter (fun block => !isNullJ block))

/-- Embeds `isValidADF`: a truthy object whose `type` is `"doc"`, whose
`version` is `1` and whose `content` is an array. -/
def isValidADF (adf : JVal) : Bool :=
  match adf with
  | .jobj fields =>
    (match jlookup "type" fields with
     | some (.jstr t) => t = "doc"
     | _ => false) &&
    (match jlookup "version" fields with
     | some (.jnum v) => v = 1
     | _ => false) &&
    (match jlookup "content" fields with
     | some (.jarr _) => true
     | _ => false)
  | _ => false

/-- Hexadecimal digit for `\u00XX` escapes in `JSON.stringify`. -/
def hexDigit (n : Nat) : Char :=
  if n < 10 then Char.ofNat (48 + n) else Char.ofNat (87 + n)

/-- Escape of one character inside a `JSON.stringify` string literal. -/
def jsonEscapeChar (c : Char) : List Char :=
  if c = '"' then ['\\', '"']
  else if c = '\\' then ['\\', '\\']
  else if c.toNat = 8 then ['\\', 'b']
  else if c.toNat = 9 then ['\\', 't']
  else if c.toNat = 0xA then ['\\', 'n']
  else if c.toNat = 0xC then ['\\', 'f']
  else if c.toNat = 0xD then ['\\', 'r']
  else if c.toNat < 0x20 then
    ['\\', 'u', hexDigit (c.toNat / 4096 % 16), hexDigit (c.toNat / 256 % 16),
     hexDigit (c.toNat / 16 % 16), hexDigit (c.toNat % 16)]
  else [c]

/-- Escaped body of a `JSON.stringify` string literal. -/
def jsonEscape (s : String) : String :=
  String.mk ((s.data.map jsonEscapeChar).flatten)

mutual

/-- Model of the JavaScript builtin `JSON.stringify` on JSON values (only its
output being a string matters to the theorems below: the stringified object is
fed back through `textToADF`). -/
def jsonStringify : JVal → String
  | .jnull => "null"
  | .jbool b => if b then "true" else "false"
  | .jnum n => toString n
  | .jstr s => String.append (String.append "\"" (jsonEscape s)) "\""
  | .jarr xs => String.append (String.append "[" (jsonStringifyArr xs)) "]"
  | .jobj fs => String.append (String.append "\x7b" (jsonStringifyObj fs)) "\x7d"

/-- Comma-joined stringification of the elements of an array. -/
def jsonStringifyArr : List JVal → String
  | [] => ""
  | [x] => jsonStringify x
  | x :: y :: rest =>
    String.append (String.append (jsonStringify x) ",") (jsonStringifyArr (y :: rest))

/-- Comma-joined stringification of the fields of an object. -/
def jsonStringifyObj : List (String × JVal) → String
  | [] => ""
  | [(k, v)] =>
    String.append (String.append (String.append (String.append "\"" (jsonEscape k)) "\"") ":")
      (jsonStringify v)
  | (k, v) :: f :: rest =>
    String.append
      (String.append
        (String.append (String.append (String.append (String.append "\"" (jsonEscape k)) "\"") ":")
          (jsonStringify v)) ",")
      (jsonStringifyObj (f :: rest))

end

/-- Embeds the description-coercion step of `createIssue` (the four-way branch
computing `adfDescription`): a string goes through `textToADF`; a truthy
object that already satisfies `isValidADF` is used as-is; any other truthy
object is `JSON.stringify`-ed and converted; everything else (`null`,
`undefined`, numbers, booleans) becomes `textToADF("")`. -/
def computeAdfDescription (description : JVal) : JVal :=
  match description with
  | .jstr s => textToADF (.jstr s)
  | _ =>
    if jsTruthy description && jsTypeofIsObject description && isValidADF description then
      description
    else if jsTruthy description && jsTypeofIsObject description then
      textToADF (.jstr (jsonStringify description))
    else
      textToADF (.jstr "")

/-- The label-mapping configuration file once read and parsed: a `mappings`
object (association list, keys unique) and a `defaultIssueType`. -/
structure MappingConfig where
  mappings : List (String × String)
  defaultIssueType : String

/-- Property access `mappings[label]` on the parsed configuration object. -/
def lookupMapping : List (String × String) → String → Option String
  | [], _ => none
  | (k, v) :: rest, label => if k = label then some v else lookupMapping rest label

/-- The `for (const label of githubLabels)` loop of
`mapGitHubLabelsToJiraIssueType`: the first label whose mapped value is truthy
(`if (mappings[label])`, so a present-but-empty value is skipped) wins; when
the loop falls through, the configured default is returned. -/
def mapLabelsLoop (mappings : List (String × String)) (defaultIssueType : String) :
    List String → String
  | [] => defaultIssueType
  | label :: rest =>
    match lookupMapping mappings label with
    | some v => if v = "" then mapLabelsLoop mappings defaultIssueType rest else v
    | none => mapLabelsLoop mappings defaultIssueType rest

/-- Embeds `mapGitHubLabelsToJiraIssueType`. The function reads and parses the
configuration file inside a `try`; `config = none` models that read or parse
throwing (file missing or unparsable), in which case the `catch` logs and
returns the hardcoded fallback `"Task"`. With a loaded configuration the label
loop above runs. -/
def mapGitHubLabelsToJiraIssueType (githubLabels : List String)
    (config : Option MappingConfig) : String :=
  match config with
  | some cfg => mapLabelsLoop cfg.mappings cfg.defaultIssueType githubLabels
  | none => "Task"

/-- One entry of the `labels` array of a GitHub issue: either a plain string or an
object carrying the label name in its `name` field. -/
inductive LabelEntry where
  | lstr : String → LabelEntry
  | lobj : String → LabelEntry

/-- The `typeof label === "string" ? label : label.name` normalization. -/
def labelName : LabelEntry → String
  | .lstr s => s
  | .lobj name => name

/-- A GitHub issue as the classifier receives it: `title` and `body` may be
absent (`none`), and the `labels` array may be absent altogether. -/
structure GHIssue where
  title : Option String
  body : Option String
  labels : Option (List LabelEntry)

/-- Embeds `mapPriority`: lowercases `body` and `title` (absent fields
defaulting to `""` via `|| ""`), then the first-match cascade over substring
tests. Note the fourth rule of the source tests `title.includes("urgent")`,
`title.includes("critical")` and `body.includes("urgent")` only — there is no
`body.includes("critical")` test. -/
def mapPriority (issueData : GHIssue) : String :=
  let body := jsToLower (issueData.body.getD "")
  let title := jsToLower (issueData.title.getD "")
  if jsIncludes body "high - production system" || jsIncludes body "production down" then
    "Highest"
  else if jsIncludes body "medium - a non-critical feature" then
    "Medium"
  else if jsIncludes body "low - minor issue" || jsIncludes body "cosmetic" then
    "Low"
  else if jsIncludes title "urgent" || jsIncludes title "critical" || jsIncludes body "urgent" then
    "High"
  else
    "Medium"

/-- The fixed component vocabulary of `mapGitHubIssueToJiraFields`. -/
def platformAreas : List String := ["REELS", "ALPHA", "TRINITY", "AI HUB"]

/-- One line of the multiline scan matching an area: after trimming JS
whitespace the line equals the area up to case. -/
def lineMatchesArea (area : String) (line : List Char) : Bool :=
  (trimJs line).map Char.toLower == area.data.map Char.toLower

/-- Embeds the test `new RegExp("^\\s*" + area + "\\s*$", "mi").test(body)` of
`mapGitHubIssueToJiraFields`: some line of the body (the `m` flag makes `^`/`$`
match at every line-terminator boundary) consists of the area alone up to
surrounding whitespace, case-insensitively. The equivalence of this
line-by-line computation with the backtracking regex semantics
(`regexStandaloneMatches` below) is proved in `areaRegexTest_iff_regex`. -/
def areaRegexTest (area : String) (body : String) : Bool :=
  (splitListOn isLineTermChar body.data).any (fun line => lineMatchesArea area line)

/-- The component extraction loop of `mapGitHubIssueToJiraFields`: the
vocabulary is scanned in order and every area whose regex test fires is kept. -/
def extractComponents (body : String) : List String :=
  platformAreas.filter (fun area => areaRegexTest area body)

/-- The object `mapGitHubIssueToJiraFields` returns. -/
structure ClassificationResult where
  issueType : String
  priority : String
  components : List String
  labels : List String
  originalLabels : Option (List LabelEntry)

/-- Embeds `mapGitHubIssueToJiraFields`: normalizes the labels array (strings
kept, objects contributing their `name`; an absent array yielding `[]`), maps
the issue type from the normalized labels and the configuration, the priority
from the issue text, and the components from the body (`githubIssue.body || ""`). -/
def mapGitHubIssueToJiraFields (githubIssue : GHIssue) (config : Option MappingConfig) :
    ClassificationResult :=
  let labels := match githubIssue.labels with
    | some ls => ls.map labelName
    | none => []
  { issueType := mapGitHubLabelsToJiraIssueType labels config
    priority := mapPriority githubIssue
    components := extractComponents (githubIssue.body.getD "")
    labels := labels
    originalLabels := githubIssue.labels }

/-- The mapping information `createGitHubIssueADF` receives (possibly the
empty object `\x7b\x7d`, modelled by all fields `none`). -/
structure MappingInfo where
  labels : Option (List String)
  issueType : Option String
  priority : Option String

/-- Rule (separator) block of the assembler. -/
def ruleBlock : JVal := .jobj [("type", .jstr "rule")]

/-- Emphasized text node of the mapping-information paragraphs of the assembler. -/
def emTextNode (t : String) : JVal :=
  .jobj [("type", .jstr "text"), ("text", .jstr t),
         ("marks", .jarr [.jobj [("type", .jstr "em")]])]

/-- Embeds `createGitHubIssueADF`: the fixed four blocks (link paragraph,
author paragraph, date paragraph, rule), then the three conditional
mapping-information paragraphs, then — only for a body with non-whitespace
content — a second rule and one paragraph per retained body line (same
split/filter/trim as `textToADF`). -/
def createGitHubIssueADF (githubUrl author createdAt body : String)
    (mappingInfo : MappingInfo) : JVal :=
  let content : List JVal := [
    .jobj [("type", .jstr "paragraph"), ("content", .jarr [
      .jobj [("type", .jstr "text"), ("text", .jstr "Original GitHub Issue: ")],
      .jobj [("type", .jstr "text"), ("text", .jstr githubUrl),
             ("marks", .jarr [.jobj [("type", .jstr "link"),
               ("attrs", .jobj [("href", .jstr githubUrl)])]])]])],
    paragraphOf [textNode (String.append "Created by: " author)],
    paragraphOf [textNode (String.append "Created at: " createdAt)],
    ruleBlock]
  let content := content ++
    (match mappingInfo.labels with
     | some ls =>
       if 0 < ls.length then
         [paragraphOf [emTextNode (String.append "GitHub Labels: " (String.intercalate ", " ls))]]
       else []
     | none => [])
  let content := content ++
    (match mappingInfo.issueType with
     | some t => if t ≠ "" then [paragraphOf [emTextNode (String.append "Mapped to Issue Type: " t)]] else []
     | none => [])
  let content := content ++
    (match mappingInfo.priority with
     | some p => if p ≠ "" then [paragraphOf [emTextNode (String.append "Priority: " p)]] else []
     | none => [])
  let content := content ++
    (if body ≠ "" && jsTrimS body ≠ "" then [ruleBlock] else [])
  let content := content ++
    (if body ≠ "" && jsTrimS body ≠ "" then
      ((jsSplitNewline body).filter (fun line => jsTrimS line ≠ "")).map
        (fun paragraph => paragraphOf [textNode (jsTrimS paragraph)])
    else [])
  mkDoc content

/-- Specification-side reading of substring containment: `needle` occurs
contiguously in `hay`. -/
def SubstringOf (needle hay : List Char) : Prop :=
  ∃ l r, hay = l ++ needle ++ r

/-- A `listStartsWith` test succeeds exactly when the haystack extends the
needle. -/
theorem listStartsWith_iff (n h : List Char) :
    listStartsWith n h = true ↔ ∃ r, h = n ++ r := by
  induction n generalizing h with
  | nil => simp [listStartsWith]
  | cons a as ih =>
    cases h with
    | nil => simp [listStartsWith]
    | cons b bs =>
      simp only [listStartsWith, Bool.and_eq_true, beq_iff_eq, ih, List.cons_append]
      constructor
      · rintro ⟨rfl, r, rfl⟩
        exact ⟨r, rfl⟩
      · rintro ⟨r, hr⟩
        injection hr with h1 h2
        exact ⟨h1.symm, r, h2⟩

/-- A `containsSub` test succeeds exactly when the needle is a contiguous
substring of the haystack. -/
theorem containsSub_iff (n h : List Char) :
    containsSub n h = true ↔ SubstringOf n h := by
  induction h with
  | nil =>
    simp only [containsSub, listStartsWith_iff, SubstringOf]
    constructor
    · rintro ⟨r, hr⟩
      exact ⟨[], r, hr⟩
    · rintro ⟨l, r, hr⟩
      cases l with
      | nil => exact ⟨r, hr⟩
      | cons x xs => simp at hr
  | cons c rest ih =>
    simp only [containsSub, Bool.or_eq_true, listStartsWith_iff, ih, SubstringOf]
    constructor
    · rintro (⟨r, hr⟩ | ⟨l, r, hr⟩)
      · exact ⟨[], r, by simpa using hr⟩
      · exact ⟨c :: l, r, by simp [hr]⟩
    · rintro ⟨l, r, hr⟩
      cases l with
      | nil => exact Or.inl ⟨r, by simpa using hr⟩
      | cons x xs =>
        injection hr with h1 h2
        exact Or.inr ⟨xs, r, h2⟩

/-- The `jsIncludes` computation agrees with the specification-side substring
predicate. -/
theorem jsIncludes_iff (hay needle : String) :
    jsIncludes hay needle = true ↔ SubstringOf needle.data hay.data :=
  containsSub_iff needle.data hay.data

/-- Characters that basic-latin lowercasing leaves fixed: everything outside
the upper-case ASCII range. -/
theorem toLower_fixed_of_not_upper (c : Char) (h : c.toNat < 65 ∨ 90 < c.toNat) :
    c.toLower = c := by
  unfold Char.toLower
  rw [if_neg]
  omega

/-- JS whitespace characters are fixed by lowercasing. -/
theorem toLower_fixed_of_space (c : Char) (h : isJsSpaceChar c = true) :
    c.toLower = c := by
  apply toLower_fixed_of_not_upper
  simp [isJsSpaceChar] at h
  omega

/-- Line terminators are fixed by lowercasing. -/
theorem toLower_fixed_of_term (c : Char) (h : isLineTermChar c = true) :
    c.toLower = c := by
  apply toLower_fixed_of_not_upper
  simp [isLineTermChar] at h
  omega

/-- Every line terminator is JS whitespace. -/
theorem isJsSpaceChar_of_lineTerm (c : Char) (h : isLineTermChar c = true) :
    isJsSpaceChar c = true := by
  simp [isLineTermChar] at h
  simp [isJsSpaceChar]
  omega

/-- The split of a character list is never empty. -/
theorem splitListOn_ne_nil (p : Char → Bool) (l : List Char) :
    splitListOn p l ≠ [] := by
  induction l with
  | nil => simp [splitListOn]
  | cons c cs ih =>
    simp only [splitListOn]
    split
    · simp
    · cases hs : splitListOn p cs with
      | nil => simp
      | cons a as => simp

/-- Splitting a separator-free list keeps it whole. -/
theorem splitListOn_eq_single (p : Char → Bool) (l : List Char)
    (h : ∀ c ∈ l, p c = false) : splitListOn p l = [l] := by
  induction l with
  | nil => rfl
  | cons c cs ih =>
    have hc : p c = false := h c (by simp)
    have hrest := ih (fun d hd => h d (by simp [hd]))
    simp [splitListOn, hc, hrest]

/-- A separator at the head opens a fresh empty fragment. -/
theorem splitListOn_cons_term (p : Char → Bool) (c : Char) (l : List Char)
    (h : p c = true) : splitListOn p (c :: l) = [] :: splitListOn p l := by
  simp [splitListOn, h]

/-- A separator inside the list cuts the split in two. -/
theorem splitListOn_append_term (p : Char → Bool) (t : Char) (h : p t = true)
    (x y : List Char) :
    splitListOn p (x ++ t :: y) = splitListOn p x ++ splitListOn p y := by
  induction x with
  | nil => simp [splitListOn, h]
  | cons c cs ih =>
    by_cases hc : p c = true
    · simp [splitListOn, hc, ih]
    · have hc' : p c = false := by simpa using hc
      simp only [List.cons_append, splitListOn, hc', Bool.false_eq_true, if_false,
        List.append_eq]
      rw [ih]
      cases hs : splitListOn p cs with
      | nil => exact absurd hs (splitListOn_ne_nil p cs)
      | cons a as => simp

/-- Shape of the first fragment of a split: a separator-free prefix of the
list, followed either by nothing or by a separator and the remainder, whose
split is the tail of fragments. -/
theorem splitListOn_head_decomp (p : Char → Bool) (l h : List Char)
    (tl : List (List Char)) (hs : splitListOn p l = h :: tl) :
    (∀ c ∈ h, p c = false) ∧
      ((l = h ∧ tl = []) ∨
        ∃ t y, l = h ++ t :: y ∧ p t = true ∧ tl = splitListOn p y) := by
  induction l generalizing h tl with
  | nil =>
    simp only [splitListOn] at hs
    injection hs with h1 h2
    subst h1; subst h2
    exact ⟨by simp, Or.inl ⟨rfl, rfl⟩⟩
  | cons c cs ih =>
    simp only [splitListOn] at hs
    by_cases hc : p c = true
    · rw [if_pos hc] at hs
      injection hs with h1 h2
      subst h1; subst h2
      exact ⟨by simp, Or.inr ⟨c, cs, by simp, hc, rfl⟩⟩
    · have hc' : p c = false := by simpa using hc
      rw [if_neg hc] at hs
      cases hcs : splitListOn p cs with
      | nil => exact absurd hcs (splitListOn_ne_nil p cs)
      | cons a as =>
        rw [hcs] at hs
        injection hs with h1 h2
        subst h1; subst h2
        obtain ⟨hafree, hcase⟩ := ih a as hcs
        refine ⟨?_, ?_⟩
        · intro d hd
          rcases List.mem_cons.mp hd with rfl | hd'
          · exact hc'
          · exact hafree d hd'
        · rcases hcase with ⟨rfl, rfl⟩ | ⟨t, y, rfl, ht, rfl⟩
          · exact Or.inl ⟨rfl, rfl⟩
          · exact Or.inr ⟨t, y, by simp, ht, rfl⟩

/-- Every fragment of a split sits inside the list between separator
boundaries (or the ends), and is itself separator-free. -/
theorem mem_splitListOn_decomp_aux (p : Char → Bool) :
    ∀ (n : Nat) (l : List Char), l.length ≤ n → ∀ line ∈ splitListOn p l,
      ∃ pre post, l = pre ++ line ++ post ∧
        (pre = [] ∨ ∃ a t, pre = a ++ [t] ∧ p t = true) ∧
        (post = [] ∨ ∃ t b, post = t :: b ∧ p t = true) ∧
        (∀ c ∈ line, p c = false) := by
  intro n
  induction n with
  | zero =>
    intro l hl line hline
    have hnil : l = [] := List.eq_nil_of_length_eq_zero (Nat.le_zero.mp hl)
    subst hnil
    simp only [splitListOn, List.mem_singleton] at hline
    subst hline
    exact ⟨[], [], rfl, Or.inl rfl, Or.inl rfl, by simp⟩
  | succ n ih =>
    intro l hl line hline
    cases hsp : splitListOn p l with
    | nil => exact absurd hsp (splitListOn_ne_nil p l)
    | cons h tl =>
      rw [hsp] at hline
      obtain ⟨hfree, hcase⟩ := splitListOn_head_decomp p l h tl hsp
      rcases List.mem_cons.mp hline with rfl | hmem
      · rcases hcase with ⟨rfl, -⟩ | ⟨t, y, rfl, ht, -⟩
        · exact ⟨[], [], by simp, Or.inl rfl, Or.inl rfl, hfree⟩
        · exact ⟨[], t :: y, by simp, Or.inl rfl, Or.inr ⟨t, y, rfl, ht⟩, hfree⟩
      · rcases hcase with ⟨rfl, rfl⟩ | ⟨t, y, rfl, ht, rfl⟩
        · simp at hmem
        · have hy : y.length ≤ n := by
            rw [List.length_append, List.length_cons] at hl
            omega
          obtain ⟨pre', post', hdecomp, hpre, hpost, hfree'⟩ := ih y hy line hmem
          refine ⟨h ++ t :: pre', post', ?_, ?_, hpost, hfree'⟩
          · rw [hdecomp]; simp
          · right
            rcases hpre with rfl | ⟨a, t', rfl, ht'⟩
            · exact ⟨h, t, by simp, ht⟩
            · exact ⟨h ++ t :: a, t', by simp, ht'⟩

/-- The decomposition form of `mem_splitListOn_decomp_aux` at the length of the list itself. -/
theorem mem_splitListOn_decomp (p : Char → Bool) (l line : List Char)
    (hline : line ∈ splitListOn p l) :
    ∃ pre post, l = pre ++ line ++ post ∧
      (pre = [] ∨ ∃ a t, pre = a ++ [t] ∧ p t = true) ∧
      (post = [] ∨ ∃ t b, post = t :: b ∧ p t = true) ∧
      (∀ c ∈ line, p c = false) :=
  mem_splitListOn_decomp_aux p l.length l (Nat.le_refl _) line hline

/-- Conversely, a separator-free segment flanked by separator boundaries (or
the ends of the list) is a fragment of the split. -/
theorem decomp_mem_splitListOn (p : Char → Bool) (line pre post : List Char)
    (hpre : pre = [] ∨ ∃ a t, pre = a ++ [t] ∧ p t = true)
    (hpost : post = [] ∨ ∃ t b, post = t :: b ∧ p t = true)
    (hfree : ∀ c ∈ line, p c = false) :
    line ∈ splitListOn p (pre ++ line ++ post) := by
  have hbase : line ∈ splitListOn p (line ++ post) := by
    rcases hpost with rfl | ⟨t, b, rfl, ht⟩
    · rw [List.append_nil, splitListOn_eq_single p line hfree]
      simp
    · rw [splitListOn_append_term p t ht line b, splitListOn_eq_single p line hfree]
      simp
  rcases hpre with rfl | ⟨a, t, rfl, ht⟩
  · simpa using hbase
  · have heq : (a ++ [t]) ++ line ++ post = a ++ t :: (line ++ post) := by simp
    rw [heq, splitListOn_append_term p t ht a (line ++ post)]
    exact List.mem_append_right _ hbase

/-- Dropping while `p` holds skips over an all-`p` prefix. -/
theorem dropWhile_append_of_all (p : Char → Bool) (w r : List Char)
    (h : ∀ c ∈ w, p c = true) : (w ++ r).dropWhile p = r.dropWhile p := by
  induction w with
  | nil => rfl
  | cons c cs ih =>
    have hc : p c = true := h c (by simp)
    rw [List.cons_append, List.dropWhile_cons_of_pos hc]
    exact ih (fun d hd => h d (by simp [hd]))

/-- Dropping while `p` holds is the identity when the head refutes `p`. -/
theorem dropWhile_eq_self_of_head (p : Char → Bool) (l : List Char)
    (h : ∀ c, l.head? = some c → p c = false) : l.dropWhile p = l := by
  cases l with
  | nil => rfl
  | cons c cs =>
    have hc : p c = false := h c rfl
    simp [List.dropWhile_cons, hc]

/-- Dropping while `p` holds exhausts an all-`p` list. -/
theorem dropWhile_eq_nil_of_all (p : Char → Bool) (l : List Char)
    (h : ∀ c ∈ l, p c = true) : l.dropWhile p = [] := by
  induction l with
  | nil => rfl
  | cons c cs ih =>
    rw [List.dropWhile_cons_of_pos (h c (by simp))]
    exact ih (fun d hd => h d (by simp [hd]))

/-- Every list is its JS-trimmed core flanked by JS whitespace. -/
theorem trimJs_decomp (l : List Char) :
    ∃ w1 w2, l = w1 ++ trimJs l ++ w2 ∧
      (∀ c ∈ w1, isJsSpaceChar c = true) ∧ (∀ c ∈ w2, isJsSpaceChar c = true) := by
  refine ⟨l.takeWhile isJsSpaceChar,
    ((l.dropWhile isJsSpaceChar).reverse.takeWhile isJsSpaceChar).reverse, ?_, ?_, ?_⟩
  · conv_lhs => rw [← List.takeWhile_append_dropWhile (p := isJsSpaceChar) (l := l)]
    rw [List.append_assoc]
    congr 1
    conv_lhs => rw [← List.reverse_reverse (l.dropWhile isJsSpaceChar),
      ← List.takeWhile_append_dropWhile (p := isJsSpaceChar)
        (l := (l.dropWhile isJsSpaceChar).reverse)]
    rw [List.reverse_append]
    rfl
  · intro c hc
    exact List.mem_takeWhile_imp hc
  · intro c hc
    rw [List.mem_reverse] at hc
    exact List.mem_takeWhile_imp hc

/-- JS-trimming an all-whitespace list yields the empty list. -/
theorem trimJs_eq_nil_of_all (l : List Char) (h : ∀ c ∈ l, isJsSpaceChar c = true) :
    trimJs l = [] := by
  unfold trimJs
  rw [dropWhile_eq_nil_of_all _ l h]
  rfl

/-- JS-trimming strips exactly the whitespace flanks around a core whose first
and last characters are not whitespace. -/
theorem trimJs_sandwich (w1 mid w2 : List Char)
    (h1 : ∀ c ∈ w1, isJsSpaceChar c = true) (h2 : ∀ c ∈ w2, isJsSpaceChar c = true)
    (hhead : ∀ c, mid.head? = some c → isJsSpaceChar c = false)
    (hlast : ∀ c, mid.getLast? = some c → isJsSpaceChar c = false) :
    trimJs (w1 ++ mid ++ w2) = mid := by
  cases hm : mid with
  | nil =>
    subst hm
    apply trimJs_eq_nil_of_all
    intro c hc
    rw [List.append_nil, List.mem_append] at hc
    rcases hc with hc | hc
    · exact h1 c hc
    · exact h2 c hc
  | cons m0 ms =>
    unfold trimJs
    rw [List.append_assoc, dropWhile_append_of_all _ w1 _ h1]
    have hstep : (mid ++ w2).dropWhile isJsSpaceChar = mid ++ w2 := by
      apply dropWhile_eq_self_of_head
      intro c hc
      rw [hm] at hc
      simp only [List.cons_append, List.head?_cons, Option.some.injEq] at hc
      subst hc
      exact hhead m0 (by rw [hm]; rfl)
    rw [← hm] at *
    rw [hstep, List.reverse_append,
      dropWhile_append_of_all _ w2.reverse _ (fun c hc => h2 c (List.mem_reverse.mp hc)),
      dropWhile_eq_self_of_head _ mid.reverse
        (fun c hc => hlast c (by rw [← List.head?_reverse]; exact hc)),
      List.reverse_reverse]

/-- A list either avoids `p` altogether or splits at its last `p`-character. -/
theorem last_term_split (p : Char → Bool) (l : List Char) :
    (∀ c ∈ l, p c = false) ∨
      ∃ a t b, l = a ++ t :: b ∧ p t = true ∧ (∀ c ∈ b, p c = false) := by
  induction l with
  | nil => exact Or.inl (by simp)
  | cons c cs ih =>
    rcases ih with hfree | ⟨a, t, b, rfl, ht, hb⟩
    · by_cases hc : p c = true
      · exact Or.inr ⟨[], c, cs, rfl, hc, hfree⟩
      · refine Or.inl ?_
        intro d hd
        rcases List.mem_cons.mp hd with rfl | hd'
        · simpa using hc
        · exact hfree d hd'
    · exact Or.inr ⟨c :: a, t, b, rfl, ht, hb⟩

/-- A list either avoids `p` altogether or splits at its first `p`-character. -/
theorem first_term_split (p : Char → Bool) (l : List Char) :
    (∀ c ∈ l, p c = false) ∨
      ∃ a t b, l = a ++ t :: b ∧ p t = true ∧ (∀ c ∈ a, p c = false) := by
  induction l with
  | nil => exact Or.inl (by simp)
  | cons c cs ih =>
    by_cases hc : p c = true
    · exact Or.inr ⟨[], c, cs, rfl, hc, by simp⟩
    · rcases ih with hfree | ⟨a, t, b, rfl, ht, ha⟩
      · refine Or.inl ?_
        intro d hd
        rcases List.mem_cons.mp hd with rfl | hd'
        · simpa using hc
        · exact hfree d hd'
      · refine Or.inr ⟨c :: a, t, b, rfl, ht, ?_⟩
        intro d hd
        rcases List.mem_cons.mp hd with rfl | hd'
        · simpa using hc
        · exact ha d hd'

/-- Pointwise images agree along two lists with equal images: every element of
the first shares its image with some element of the second. -/
theorem map_eq_map_mem_rel (f : Char → Char) :
    ∀ (l1 l2 : List Char), l1.map f = l2.map f → ∀ c ∈ l1, ∃ d ∈ l2, f c = f d := by
  intro l1
  induction l1 with
  | nil => simp
  | cons a as ih =>
    intro l2 h c hc
    cases l2 with
    | nil => simp at h
    | cons b bs =>
      simp only [List.map_cons, List.cons.injEq] at h
      rcases List.mem_cons.mp hc with rfl | hc'
      · exact ⟨b, by simp, h.1⟩
      · obtain ⟨d, hd, hfd⟩ := ih bs h.2 c hc'
        exact ⟨d, by simp [hd], hfd⟩

/-- Heads of two lists with equal images have equal images. -/
theorem map_eq_map_head (f : Char → Char) (l1 l2 : List Char)
    (h : l1.map f = l2.map f) (c d : Char)
    (h1 : l1.head? = some c) (h2 : l2.head? = some d) : f c = f d := by
  cases l1 with
  | nil => simp at h1
  | cons a as =>
    cases l2 with
    | nil => simp at h2
    | cons b bs =>
      simp only [List.head?_cons, Option.some.injEq] at h1 h2
      subst h1; subst h2
      simp only [List.map_cons, List.cons.injEq] at h
      exact h.1

/-- Last elements of two lists with equal images have equal images. -/
theorem map_eq_map_getLast (f : Char → Char) (l1 l2 : List Char)
    (h : l1.map f = l2.map f) (c d : Char)
    (h1 : l1.getLast? = some c) (h2 : l2.getLast? = some d) : f c = f d := by
  apply map_eq_map_head f l1.reverse l2.reverse
  · rw [List.map_reverse, List.map_reverse, h]
  · rw [List.head?_reverse]; exact h1
  · rw [List.head?_reverse]; exact h2

/-- All-whitespace character runs, as matched by the regex fragment `\s*`. -/
def AllJsSpace (l : List Char) : Prop := ∀ c ∈ l, isJsSpaceChar c = true

/-- A position right after `pre` is a multiline `^` anchor position: the start
of the input or right after a line terminator. -/
def RegexLineStart (pre : List Char) : Prop :=
  pre = [] ∨ ∃ a t, pre = a ++ [t] ∧ isLineTermChar t = true

/-- A position right before `post` is a multiline `$` anchor position: the end
of the input or right before a line terminator. -/
def RegexLineEnd (post : List Char) : Prop :=
  post = [] ∨ ∃ t b, post = t :: b ∧ isLineTermChar t = true

/-- Backtracking semantics of `new RegExp("^\\s*" + area + "\\s*$", "mi")`
tested against `body`: some decomposition places a `^` anchor, a run of
whitespace, the area (up to case folding), a second run of whitespace and a
`$` anchor. -/
def regexStandaloneMatches (area body : String) : Prop :=
  ∃ pre ws1 mid ws2 post,
    body.data = pre ++ ws1 ++ mid ++ ws2 ++ post ∧
    RegexLineStart pre ∧ AllJsSpace ws1 ∧
    mid.map Char.toLower = area.data.map Char.toLower ∧
    AllJsSpace ws2 ∧ RegexLineEnd post

/-- The line-by-line computation `areaRegexTest` agrees with the backtracking
regex semantics, for any area that is non-empty, contains no line terminator
and neither starts nor ends with whitespace (after case folding) — as all four
areas of the fixed vocabulary do. -/
theorem areaRegexTest_iff_regex (area body : String)
    (hne : area.data ≠ [])
    (hterm : ∀ c ∈ area.data, isLineTermChar c.toLower = false)
    (hhead : ∀ c ∈ area.data.take 1, isJsSpaceChar c.toLower = false)
    (hlast : ∀ c ∈ area.data.reverse.take 1, isJsSpaceChar c.toLower = false) :
    areaRegexTest area body = true ↔ regexStandaloneMatches area body := by
  constructor
  · intro h
    rw [areaRegexTest, List.any_eq_true] at h
    obtain ⟨line, hmem, hmatch⟩ := h
    simp only [lineMatchesArea, beq_iff_eq] at hmatch
    obtain ⟨pre, post, hdecomp, hpre, hpost, hfree⟩ :=
      mem_splitListOn_decomp isLineTermChar body.data line hmem
    obtain ⟨w1, w2, hline, hw1, hw2⟩ := trimJs_decomp line
    refine ⟨pre, w1, trimJs line, w2, post, ?_, hpre, hw1, hmatch, hw2, hpost⟩
    rw [hdecomp]
    conv_lhs => rw [hline]
    simp [List.append_assoc]
  · rintro ⟨pre, ws1, mid, ws2, post, heq, hstart, hws1, hmap, hws2, hend⟩
    have hmidhead : ∀ c, mid.head? = some c → isJsSpaceChar c = false := by
      intro c hc
      cases hd : area.data with
      | nil => exact absurd hd hne
      | cons a as =>
        have hfc : c.toLower = a.toLower :=
          map_eq_map_head Char.toLower mid area.data hmap c a hc (by rw [hd]; rfl)
        by_contra hcon
        have hsp : isJsSpaceChar c = true := by
          revert hcon; cases isJsSpaceChar c <;> simp
        have hfix := toLower_fixed_of_space c hsp
        have hta : isJsSpaceChar a.toLower = true := by rw [← hfc, hfix]; exact hsp
        have hfa := hhead a (by rw [hd]; simp)
        simp [hfa] at hta
    have hmidlast : ∀ c, mid.getLast? = some c → isJsSpaceChar c = false := by
      intro c hc
      rw [← List.head?_reverse] at hc
      cases hd : area.data.reverse with
      | nil =>
        have : area.data = [] := by simpa using congrArg List.reverse hd
        exact absurd this hne
      | cons a as =>
        have hmap' : mid.reverse.map Char.toLower = area.data.reverse.map Char.toLower := by
          rw [List.map_reverse, List.map_reverse, hmap]
        have hfc : c.toLower = a.toLower :=
          map_eq_map_head Char.toLower mid.reverse area.data.reverse hmap' c a hc
            (by rw [hd]; rfl)
        by_contra hcon
        have hsp : isJsSpaceChar c = true := by
          revert hcon; cases isJsSpaceChar c <;> simp
        have hfix := toLower_fixed_of_space c hsp
        have hta : isJsSpaceChar a.toLower = true := by rw [← hfc, hfix]; exact hsp
        have hfa := hlast a (by rw [hd]; simp)
        simp [hfa] at hta
    have hmidfree : ∀ c ∈ mid, isLineTermChar c = false := by
      intro c hc
      obtain ⟨d, hd, hfd⟩ := map_eq_map_mem_rel Char.toLower mid area.data hmap c hc
      by_contra hcon
      have ht : isLineTermChar c = true := by
        revert hcon; cases isLineTermChar c <;> simp
      have hfix := toLower_fixed_of_term c ht
      have htd : isLineTermChar d.toLower = true := by rw [← hfd, hfix]; exact ht
      simp [hterm d hd] at htd
    have hsplit1 : ∃ pre1 w1, pre ++ ws1 = pre1 ++ w1 ∧ RegexLineStart pre1 ∧
        (∀ c ∈ w1, isJsSpaceChar c = true) ∧ (∀ c ∈ w1, isLineTermChar c = false) := by
      rcases last_term_split isLineTermChar ws1 with hfree1 | ⟨a1, t1, b1, hws1eq, ht1, hb1free⟩
      · exact ⟨pre, ws1, rfl, hstart, hws1, hfree1⟩
      · refine ⟨pre ++ a1 ++ [t1], b1, ?_, ?_, ?_, hb1free⟩
        · rw [hws1eq]; simp
        · exact Or.inr ⟨pre ++ a1, t1, by simp, ht1⟩
        · intro c hc
          exact hws1 c (by rw [hws1eq]; simp [hc])
    have hsplit2 : ∃ w2 post1, ws2 ++ post = w2 ++ post1 ∧ RegexLineEnd post1 ∧
        (∀ c ∈ w2, isJsSpaceChar c = true) ∧ (∀ c ∈ w2, isLineTermChar c = false) := by
      rcases first_term_split isLineTermChar ws2 with hfree2 | ⟨a2, t2, b2, hws2eq, ht2, ha2free⟩
      · exact ⟨ws2, post, rfl, hend, hws2, hfree2⟩
      · refine ⟨a2, t2 :: (b2 ++ post), ?_, ?_, ?_, ha2free⟩
        · rw [hws2eq]; simp
        · exact Or.inr ⟨t2, b2 ++ post, rfl, ht2⟩
        · intro c hc
          exact hws2 c (by rw [hws2eq]; simp [hc])
    obtain ⟨pre1, w1, heq1, hpre1, hw1sp, hw1free⟩ := hsplit1
    obtain ⟨w2, post1, heq2, hpost1, hw2sp, hw2free⟩ := hsplit2
    have hbodyeq : body.data = pre1 ++ (w1 ++ mid ++ w2) ++ post1 := by
      calc body.data = (pre ++ ws1) ++ mid ++ (ws2 ++ post) := by
            rw [heq]; simp [List.append_assoc]
        _ = (pre1 ++ w1) ++ mid ++ (w2 ++ post1) := by rw [heq1, heq2]
        _ = pre1 ++ (w1 ++ mid ++ w2) ++ post1 := by simp [List.append_assoc]
    have hlinefree : ∀ c ∈ w1 ++ mid ++ w2, isLineTermChar c = false := by
      intro c hc
      rcases List.mem_append.mp hc with hc' | hc2
      · rcases List.mem_append.mp hc' with hc1 | hcm
        · exact hw1free c hc1
        · exact hmidfree c hcm
      · exact hw2free c hc2
    have hmem : (w1 ++ mid ++ w2) ∈ splitListOn isLineTermChar body.data := by
      rw [hbodyeq]
      exact decomp_mem_splitListOn isLineTermChar (w1 ++ mid ++ w2) pre1 post1 hpre1 hpost1
        hlinefree
    have htrim : trimJs (w1 ++ mid ++ w2) = mid :=
      trimJs_sandwich w1 mid w2 hw1sp hw2sp hmidhead hmidlast
    rw [areaRegexTest, List.any_eq_true]
    refine ⟨w1 ++ mid ++ w2, hmem, ?_⟩
    simp only [lineMatchesArea, beq_iff_eq]
    rw [htrim]
    exact hmap

/-- Every document literal the builders emit satisfies the validator. -/
theorem isValidADF_mkDoc (content : List JVal) : isValidADF (mkDoc content) = true := rfl

/-- The plain-text conversion always yields a valid document. -/
theorem textToADF_isValid (v : JVal) : isValidADF (textToADF v) = true := by
  cases v with
  | jstr s =>
    simp only [textToADF]
    split
    · exact isValidADF_mkDoc []
    · exact isValidADF_mkDoc _
  | jnull => exact isValidADF_mkDoc []
  | jbool b => exact isValidADF_mkDoc []
  | jnum n => exact isValidADF_mkDoc []
  | jarr xs => exact isValidADF_mkDoc []
  | jobj fs => exact isValidADF_mkDoc []

/-- Non-string input to `textToADF` yields the empty document. -/
theorem textToADF_nonstring (v : JVal) (h : ∀ s : String, v ≠ JVal.jstr s) :
    textToADF v = mkDoc [] := by
  cases v with
  | jstr s => exact absurd rfl (h s)
  | jnull => rfl
  | jbool b => rfl
  | jnum n => rfl
  | jarr xs => rfl
  | jobj fs => rfl

/-- On a non-empty string with at least one retained line, `textToADF` yields
one paragraph per retained line, each wrapping the trimmed line. -/
theorem textToADF_jstr_retained (s : String) (hs : ¬s = "")
    (h : (jsSplitNewline s).filter (fun line => jsTrimS line ≠ "") ≠ []) :
    textToADF (JVal.jstr s) =
      mkDoc (((jsSplitNewline s).filter (fun line => jsTrimS line ≠ "")).map
        (fun line => paragraphOf [textNode (jsTrimS line)])) := by
  simp only [textToADF, if_neg hs]
  rw [if_pos]
  rw [List.length_map]
  exact List.length_pos.mpr h

/-- On a non-empty string all of whose lines are discarded, `textToADF` wraps
the raw text in a single paragraph. -/
theorem textToADF_jstr_fallback (s : String) (hs : ¬s = "")
    (h : (jsSplitNewline s).filter (fun line => jsTrimS line ≠ "") = []) :
    textToADF (JVal.jstr s) = mkDoc [paragraphOf [textNode s]] := by
  simp only [textToADF, if_neg hs]
  rw [h]
  rfl

/-- The `jsIncludes` test against a lowercased string is exactly case-blind
substring containment. -/
theorem jsIncludes_lower_iff (s needle : String) :
    jsIncludes (jsToLower s) needle = true ↔
      SubstringOf needle.data (s.data.map Char.toLower) :=
  containsSub_iff needle.data (s.data.map Char.toLower)

/-- A failed `jsIncludes` test refutes the containment predicate. -/
theorem not_substring_of_includes_false (s needle : String)
    (h : jsIncludes (jsToLower s) needle = false) :
    ¬SubstringOf needle.data (s.data.map Char.toLower) := by
  intro hs
  have htrue := (jsIncludes_lower_iff s needle).mpr hs
  rw [h] at htrue
  exact Bool.false_ne_true htrue

/-- The lowercased body of an issue, the matching domain of the classifier. -/
def bodyLower (issue : GHIssue) : List Char :=
  (issue.body.getD "").data.map Char.toLower

/-- The lowercased title of an issue. -/
def titleLower (issue : GHIssue) : List Char :=
  (issue.title.getD "").data.map Char.toLower

/-- First priority rule of the specification: the body signals a production
emergency. -/
def PriorityRule1 (issue : GHIssue) : Prop :=
  SubstringOf "high - production system".data (bodyLower issue) ∨
    SubstringOf "production down".data (bodyLower issue)

/-- Second priority rule: the body carries the non-critical-feature phrase. -/
def PriorityRule2 (issue : GHIssue) : Prop :=
  SubstringOf "medium - a non-critical feature".data (bodyLower issue)

/-- Third priority rule: the body signals a minor or cosmetic issue. -/
def PriorityRule3 (issue : GHIssue) : Prop :=
  SubstringOf "low - minor issue".data (bodyLower issue) ∨
    SubstringOf "cosmetic".data (bodyLower issue)

/-- Fourth priority rule as the code implements it: "urgent" or "critical" in
the title, or "urgent" in the body. -/
def PriorityRule4Amended (issue : GHIssue) : Prop :=
  SubstringOf "urgent".data (titleLower issue) ∨
    SubstringOf "critical".data (titleLower issue) ∨
    SubstringOf "urgent".data (bodyLower issue)

/-- Claim C1 (amended): `mapPriority` implements the first-match cascade over
the lowercased title and body — production phrases in the body give
`"Highest"`, the non-critical-feature phrase gives `"Medium"`, minor/cosmetic
phrases give `"Low"`, then `"urgent"`/`"critical"` in the title or `"urgent"`
in the body (but not `"critical"` in the body alone) give `"High"`, and
everything else gives `"Medium"`. -/
theorem mapPriority_amended_cascade (issue : GHIssue) :
    (PriorityRule1 issue → mapPriority issue = "Highest") ∧
    (¬PriorityRule1 issue → PriorityRule2 issue → mapPriority issue = "Medium") ∧
    (¬PriorityRule1 issue → ¬PriorityRule2 issue → PriorityRule3 issue →
      mapPriority issue = "Low") ∧
    (¬PriorityRule1 issue → ¬PriorityRule2 issue → ¬PriorityRule3 issue →
      PriorityRule4Amended issue → mapPriority issue = "High") ∧
    (¬PriorityRule1 issue → ¬PriorityRule2 issue → ¬PriorityRule3 issue →
      ¬PriorityRule4Amended issue → mapPriority issue = "Medium") := by
  have e1 : (jsIncludes (jsToLower (issue.body.getD "")) "high - production system" ||
      jsIncludes (jsToLower (issue.body.getD "")) "production down") = true ↔
      PriorityRule1 issue := by
    unfold PriorityRule1 bodyLower
    rw [Bool.or_eq_true]
    exact or_congr (jsIncludes_lower_iff _ _) (jsIncludes_lower_iff _ _)
  have e2 : jsIncludes (jsToLower (issue.body.getD "")) "medium - a non-critical feature" = true ↔
      PriorityRule2 issue := by
    unfold PriorityRule2 bodyLower
    exact jsIncludes_lower_iff _ _
  have e3 : (jsIncludes (jsToLower (issue.body.getD "")) "low - minor issue" ||
      jsIncludes (jsToLower (issue.body.getD "")) "cosmetic") = true ↔
      PriorityRule3 issue := by
    unfold PriorityRule3 bodyLower
    rw [Bool.or_eq_true]
    exact or_congr (jsIncludes_lower_iff _ _) (jsIncludes_lower_iff _ _)
  have e4 : (jsIncludes (jsToLower (issue.title.getD "")) "urgent" ||
      jsIncludes (jsToLower (issue.title.getD "")) "critical" ||
      jsIncludes (jsToLower (issue.body.getD "")) "urgent") = true ↔
      PriorityRule4Amended issue := by
    unfold PriorityRule4Amended titleLower bodyLower
    rw [Bool.or_eq_true, Bool.or_eq_true, or_assoc]
    exact or_congr (jsIncludes_lower_iff _ _)
      (or_congr (jsIncludes_lower_iff _ _) (jsIncludes_lower_iff _ _))
  simp only [mapPriority]
  split_ifs with h1 h2 h3 h4
  · exact ⟨fun _ => rfl,
      fun hn1 _ => absurd (e1.mp h1) hn1,
      fun hn1 _ _ => absurd (e1.mp h1) hn1,
      fun hn1 _ _ _ => absurd (e1.mp h1) hn1,
      fun hn1 _ _ _ => absurd (e1.mp h1) hn1⟩
  · exact ⟨fun hr1 => absurd (e1.mpr hr1) h1,
      fun _ _ => rfl,
      fun _ hn2 _ => absurd (e2.mp h2) hn2,
      fun _ hn2 _ _ => absurd (e2.mp h2) hn2,
      fun _ hn2 _ _ => absurd (e2.mp h2) hn2⟩
  · exact ⟨fun hr1 => absurd (e1.mpr hr1) h1,
      fun _ hr2 => absurd (e2.mpr hr2) h2,
      fun _ _ _ => rfl,
      fun _ _ hn3 _ => absurd (e3.mp h3) hn3,
      fun _ _ hn3 _ => absurd (e3.mp h3) hn3⟩
  · exact ⟨fun hr1 => absurd (e1.mpr hr1) h1,
      fun _ hr2 => absurd (e2.mpr hr2) h2,
      fun _ _ hr3 => absurd (e3.mpr hr3) h3,
      fun _ _ _ _ => rfl,
      fun _ _ _ hn4 => absurd (e4.mp h4) hn4⟩
  · exact ⟨fun hr1 => absurd (e1.mpr hr1) h1,
      fun _ hr2 => absurd (e2.mpr hr2) h2,
      fun _ _ hr3 => absurd (e3.mpr hr3) h3,
      fun _ _ _ hr4 => absurd (e4.mpr hr4) h4,
      fun _ _ _ _ => rfl⟩

/-- Claim C1 witness: an urgent title yields `"High"` through the amended
fourth rule. -/
theorem mapPriority_amended_cascade_witness :
    mapPriority ⟨some "URGENT: login crash", some "details inside", none⟩ = "High" := by
  apply (mapPriority_amended_cascade ⟨some "URGENT: login crash", some "details inside", none⟩).2.2.2.1
  · rintro (hs | hs)
    · exact not_substring_of_includes_false "details inside" "high - production system"
        (by decide) hs
    · exact not_substring_of_includes_false "details inside" "production down" (by decide) hs
  · intro hs
    exact not_substring_of_includes_false "details inside" "medium - a non-critical feature"
      (by decide) hs
  · rintro (hs | hs)
    · exact not_substring_of_includes_false "details inside" "low - minor issue" (by decide) hs
    · exact not_substring_of_includes_false "details inside" "cosmetic" (by decide) hs
  · exact Or.inl ((jsIncludes_lower_iff "URGENT: login crash" "urgent").mp (by decide))

/-- Claim C1 counterexample: a body containing `"critical"` (with the title
empty and no earlier rule firing) is mapped to `"Medium"`, not the `"High"`
the fourth rule of the claim demands — the code never tests the body for
`"critical"`. -/
theorem mapPriority_c1_counterexample :
    mapPriority ⟨some "", some "this bug is critical", none⟩ = "Medium" ∧
    SubstringOf "critical".data ("this bug is critical".data.map Char.toLower) ∧
    ¬PriorityRule1 ⟨some "", some "this bug is critical", none⟩ ∧
    ¬PriorityRule2 ⟨some "", some "this bug is critical", none⟩ ∧
    ¬PriorityRule3 ⟨some "", some "this bug is critical", none⟩ ∧
    ("Medium" : String) ≠ "High" := by
  refine ⟨rfl, (jsIncludes_lower_iff "this bug is critical" "critical").mp (by decide),
    ?_, ?_, ?_, by decide⟩
  · rintro (hs | hs)
    · exact not_substring_of_includes_false "this bug is critical" "high - production system"
        (by decide) hs
    · exact not_substring_of_includes_false "this bug is critical" "production down"
        (by decide) hs
  · intro hs
    exact not_substring_of_includes_false "this bug is critical"
      "medium - a non-critical feature" (by decide) hs
  · rintro (hs | hs)
    · exact not_substring_of_includes_false "this bug is critical" "low - minor issue"
        (by decide) hs
    · exact not_substring_of_includes_false "this bug is critical" "cosmetic" (by decide) hs

/-- All-skipped label lists fall through the loop to the default. -/
theorem mapLabelsLoop_skip_all (m : List (String × String)) (d : String) :
    ∀ labels : List String,
      (∀ l ∈ labels, lookupMapping m l = none ∨ lookupMapping m l = some "") →
      mapLabelsLoop m d labels = d := by
  intro labels
  induction labels with
  | nil => intro _; rfl
  | cons l rest ih =>
    intro hall
    rcases hall l (by simp) with h | h
    · simp only [mapLabelsLoop, h]
      exact ih (fun x hx => hall x (by simp [hx]))
    · simp only [mapLabelsLoop, h, if_pos]
      exact ih (fun x hx => hall x (by simp [hx]))

/-- Claim C2 (amended): with a loaded configuration,
`mapGitHubLabelsToJiraIssueType` returns the mapped value of the first label
in input order whose entry in `mappings` exists and is a non-empty (truthy)
string; labels with an absent or empty-string mapping are skipped; an empty or
fully-skipped list yields `defaultIssueType`; and an early match wins
regardless of the remaining labels, with no conflict error. -/
theorem mapIssueType_first_truthy_match (cfg : MappingConfig) (labels : List String) :
    (mapGitHubLabelsToJiraIssueType [] (some cfg) = cfg.defaultIssueType) ∧
    (∀ label rest v, lookupMapping cfg.mappings label = some v → v ≠ "" →
      mapGitHubLabelsToJiraIssueType (label :: rest) (some cfg) = v) ∧
    (∀ label rest, (lookupMapping cfg.mappings label = none ∨
        lookupMapping cfg.mappings label = some "") →
      mapGitHubLabelsToJiraIssueType (label :: rest) (some cfg) =
        mapGitHubLabelsToJiraIssueType rest (some cfg)) ∧
    ((∀ l ∈ labels, lookupMapping cfg.mappings l = none ∨
        lookupMapping cfg.mappings l = some "") →
      mapGitHubLabelsToJiraIssueType labels (some cfg) = cfg.defaultIssueType) := by
  refine ⟨rfl, ?_, ?_, ?_⟩
  · intro label rest v hv hne
    simp only [mapGitHubLabelsToJiraIssueType, mapLabelsLoop, hv, if_neg hne]
  · intro label rest hv
    rcases hv with h | h
    · simp only [mapGitHubLabelsToJiraIssueType, mapLabelsLoop, h]
    · simp only [mapGitHubLabelsToJiraIssueType, mapLabelsLoop, h, if_pos]
  · intro hall
    exact mapLabelsLoop_skip_all cfg.mappings cfg.defaultIssueType labels hall

/-- Claim C2 witness: an unmapped first label is skipped and the second,
mapped label decides the issue type. -/
theorem mapIssueType_first_truthy_match_witness :
    mapGitHubLabelsToJiraIssueType ["Unknown Label", "Bug Report"]
      (some ⟨[("Bug Report", "Bug")], "Task"⟩) = "Bug" := by
  have hskip := (mapIssueType_first_truthy_match ⟨[("Bug Report", "Bug")], "Task"⟩ []).2.2.1
    "Unknown Label" ["Bug Report"] (Or.inl (by decide))
  have hhit := (mapIssueType_first_truthy_match ⟨[("Bug Report", "Bug")], "Task"⟩ []).2.1
    "Bug Report" [] "Bug" (by decide) (by decide)
  rw [hskip, hhit]

/-- Claim C2 counterexample: a label that *is* a key of `mappings` but maps to
the empty string is skipped (the code tests the truthiness of the value, not key
membership), so the default is returned instead of the mapped value. -/
theorem mapIssueType_c2_counterexample :
    lookupMapping [("bug", "")] "bug" = some "" ∧
    mapGitHubLabelsToJiraIssueType ["bug"] (some ⟨[("bug", "")], "Story"⟩) = "Story" ∧
    ("Story" : String) ≠ "" := by
  refine ⟨by decide, rfl, by decide⟩

/-- Claim C3: when the configuration cannot be read or parsed the function
returns the fixed fallback `"Task"` for every label list (the error is caught,
never re-raised), while the unmatched-labels path with a loaded configuration
returns the `defaultIssueType` of that configuration — the two default tiers
are distinct code paths. -/
theorem mapIssueType_two_tier_default (labels : List String) (cfg : MappingConfig) :
    (mapGitHubLabelsToJiraIssueType labels none = "Task") ∧
    ((∀ l ∈ labels, lookupMapping cfg.mappings l = none) →
      mapGitHubLabelsToJiraIssueType labels (some cfg) = cfg.defaultIssueType) := by
  refine ⟨rfl, ?_⟩
  intro h
  exact mapLabelsLoop_skip_all cfg.mappings cfg.defaultIssueType labels
    (fun l hl => Or.inl (h l hl))

/-- Claim C3 witness: a failed configuration load yields `"Task"`; the same
unmatched label list with a loaded configuration yields its `"Story"`
default. -/
theorem mapIssueType_two_tier_default_witness :
    mapGitHubLabelsToJiraIssueType ["Feature Request"] none = "Task" ∧
    mapGitHubLabelsToJiraIssueType ["Feature Request"]
      (some ⟨[("Bug Report", "Bug")], "Story"⟩) = "Story" := by
  refine ⟨(mapIssueType_two_tier_default ["Feature Request"]
    ⟨[("Bug Report", "Bug")], "Story"⟩).1, ?_⟩
  exact (mapIssueType_two_tier_default ["Feature Request"]
    ⟨[("Bug Report", "Bug")], "Story"⟩).2 (by decide)

/-- Claim C4: the component extraction of `mapGitHubIssueToJiraFields` keeps
the vocabulary order (the result is a sublist of `platformAreas`), and a tag
is included exactly when the body matches the standalone-line regex for it —
equivalently, exactly when some line of the body (split at line terminators)
trims, case-insensitively, to the tag alone. In particular a tag embedded
mid-sentence never matches, and the list is empty when no tag matches. -/
theorem extractComponents_standalone_lines (issue : GHIssue) (config : Option MappingConfig) :
    ((mapGitHubIssueToJiraFields issue config).components).Sublist platformAreas ∧
    (∀ area, area ∈ (mapGitHubIssueToJiraFields issue config).components ↔
      area ∈ platformAreas ∧ regexStandaloneMatches area (issue.body.getD "")) ∧
    (∀ area, area ∈ (mapGitHubIssueToJiraFields issue config).components ↔
      area ∈ platformAreas ∧
        ∃ line ∈ splitListOn isLineTermChar (issue.body.getD "").data,
          (trimJs line).map Char.toLower = area.data.map Char.toLower) := by
  have hcomp : (mapGitHubIssueToJiraFields issue config).components =
      extractComponents (issue.body.getD "") := rfl
  refine ⟨?_, ?_, ?_⟩
  · rw [hcomp]
    exact List.filter_sublist _
  · intro area
    rw [hcomp]
    unfold extractComponents
    rw [List.mem_filter]
    apply and_congr_right
    intro hmem
    have hin : area = "REELS" ∨ area = "ALPHA" ∨ area = "TRINITY" ∨ area = "AI HUB" := by
      simpa [platformAreas] using hmem
    rcases hin with rfl | rfl | rfl | rfl
    · exact areaRegexTest_iff_regex "REELS" _ (by decide) (by decide) (by decide) (by decide)
    · exact areaRegexTest_iff_regex "ALPHA" _ (by decide) (by decide) (by decide) (by decide)
    · exact areaRegexTest_iff_regex "TRINITY" _ (by decide) (by decide) (by decide) (by decide)
    · exact areaRegexTest_iff_regex "AI HUB" _ (by decide) (by decide) (by decide) (by decide)
  · intro area
    rw [hcomp]
    unfold extractComponents
    rw [List.mem_filter]
    apply and_congr_right
    intro hmem
    rw [areaRegexTest, List.any_eq_true]
    simp only [lineMatchesArea, beq_iff_eq]

/-- Claim C4 witness: a body with `REELS` standing alone on a line matches the
regex semantics and yields the component, through the main theorem. -/
theorem extractComponents_standalone_lines_witness :
    regexStandaloneMatches "REELS" "Affected area:\nREELS\nmore text" ∧
    "REELS" ∈ (mapGitHubIssueToJiraFields
      ⟨none, some "Affected area:\nREELS\nmore text", none⟩ none).components := by
  have h := (extractComponents_standalone_lines
    ⟨none, some "Affected area:\nREELS\nmore text", none⟩ none).2.1 "REELS"
  have hm : "REELS" ∈ (mapGitHubIssueToJiraFields
      ⟨none, some "Affected area:\nREELS\nmore text", none⟩ none).components := by decide
  exact ⟨(h.mp hm).2, hm⟩

/-- Claim C5: `textToADF` never throws and is total — non-string and empty
inputs give a document with empty content; a non-empty string is split on line
breaks, lines empty after trimming are dropped, each retained line becomes one
paragraph with exactly one text node; and when zero lines survive the filter
the raw untrimmed text is wrapped in a single paragraph. -/
theorem textToADF_total_spec :
    (∀ v : JVal, (∀ s : String, v ≠ JVal.jstr s) → textToADF v = mkDoc []) ∧
    (textToADF (JVal.jstr "") = mkDoc []) ∧
    (∀ s : String, s ≠ "" →
      (jsSplitNewline s).filter (fun line => jsTrimS line ≠ "") ≠ [] →
      textToADF (JVal.jstr s) =
        mkDoc (((jsSplitNewline s).filter (fun line => jsTrimS line ≠ "")).map
          (fun line => paragraphOf [textNode (jsTrimS line)]))) ∧
    (∀ s : String, s ≠ "" →
      (jsSplitNewline s).filter (fun line => jsTrimS line ≠ "") = [] →
      textToADF (JVal.jstr s) = mkDoc [paragraphOf [textNode s]]) :=
  ⟨textToADF_nonstring, rfl,
    fun s hs h => textToADF_jstr_retained s hs h,
    fun s hs h => textToADF_jstr_fallback s hs h⟩

/-- Claim C5 witness: three lines survive (the blank one dropped), a
whitespace-only single line falls back to the raw text, and `null` input gives
the empty document. -/
theorem textToADF_total_spec_witness :
    textToADF JVal.jnull = mkDoc [] ∧
    textToADF (JVal.jstr "Line 1\nLine 2\n\nLine 3") =
      mkDoc [paragraphOf [textNode "Line 1"], paragraphOf [textNode "Line 2"],
        paragraphOf [textNode "Line 3"]] ∧
    textToADF (JVal.jstr " ") = mkDoc [paragraphOf [textNode " "]] := by
  refine ⟨textToADF_total_spec.1 JVal.jnull (fun s => by simp), ?_, ?_⟩
  · exact (textToADF_total_spec.2.2.1 "Line 1\nLine 2\n\nLine 3" (by decide) (by decide)).trans
      (by rfl)
  · exact textToADF_total_spec.2.2.2 " " (by decide) (by decide)

/-- Claim C6: the description-coercion step of `createIssue` is total and
always yields a valid document — `null`/absent descriptions become the empty
document, strings go through `textToADF`, an object that is already a valid
document passes through unchanged, and any other object is stringified and
converted. -/
theorem createIssue_description_spec :
    (∀ d : JVal, isValidADF (computeAdfDescription d) = true) ∧
    (computeAdfDescription JVal.jnull = mkDoc []) ∧
    (∀ s : String, computeAdfDescription (JVal.jstr s) = textToADF (JVal.jstr s)) ∧
    (∀ d : JVal, jsTruthy d = true → jsTypeofIsObject d = true → isValidADF d = true →
      computeAdfDescription d = d) ∧
    (∀ d : JVal, jsTruthy d = true → jsTypeofIsObject d = true → isValidADF d = false →
      computeAdfDescription d = textToADF (JVal.jstr (jsonStringify d))) := by
  refine ⟨?_, rfl, fun s => rfl, ?_, ?_⟩
  · intro d
    cases d with
    | jstr s => exact textToADF_isValid (JVal.jstr s)
    | jnull => exact textToADF_isValid (JVal.jstr "")
    | jbool b =>
      simp only [computeAdfDescription]
      split_ifs with h1 h2
      · simp only [Bool.and_eq_true] at h1
        exact h1.2
      · exact textToADF_isValid _
      · exact textToADF_isValid _
    | jnum n =>
      simp only [computeAdfDescription]
      split_ifs with h1 h2
      · simp only [Bool.and_eq_true] at h1
        exact h1.2
      · exact textToADF_isValid _
      · exact textToADF_isValid _
    | jarr xs =>
      simp only [computeAdfDescription]
      split_ifs with h1 h2
      · simp only [Bool.and_eq_true] at h1
        exact h1.2
      · exact textToADF_isValid _
      · exact textToADF_isValid _
    | jobj fs =>
      simp only [computeAdfDescription]
      split_ifs with h1 h2
      · simp only [Bool.and_eq_true] at h1
        exact h1.2
      · exact textToADF_isValid _
      · exact textToADF_isValid _
  · intro d h1 h2 h3
    cases d with
    | jstr s => simp [jsTypeofIsObject] at h2
    | jnull => simp [jsTruthy] at h1
    | jbool b => simp [jsTypeofIsObject] at h2
    | jnum n => simp [jsTypeofIsObject] at h2
    | jarr xs => simp [computeAdfDescription, h1, h2, h3]
    | jobj fs => simp [computeAdfDescription, h1, h2, h3]
  · intro d h1 h2 h3
    cases d with
    | jstr s => simp [jsTypeofIsObject] at h2
    | jnull => simp [jsTruthy] at h1
    | jbool b => simp [jsTypeofIsObject] at h2
    | jnum n => simp [jsTypeofIsObject] at h2
    | jarr xs => simp [computeAdfDescription, h1, h2, h3]
    | jobj fs => simp [computeAdfDescription, h1, h2, h3]

/-- Claim C6 witness: an already-valid document is used as-is; an array (an
object without the document shape) still yields a valid document. -/
theorem createIssue_description_spec_witness :
    computeAdfDescription (mkDoc []) = mkDoc [] ∧
    isValidADF (computeAdfDescription (JVal.jarr [])) = true ∧
    computeAdfDescription JVal.jnull = mkDoc [] := by
  refine ⟨createIssue_description_spec.2.2.2.1 (mkDoc []) rfl rfl rfl,
    createIssue_description_spec.1 (JVal.jarr []),
    createIssue_description_spec.2.1⟩

/-- Claim C7: every document any DocumentBuilder function produces satisfies
`isValidADF` — type `"doc"`, version `1`, and a (possibly empty) content
array. -/
theorem documentBuilder_isValid :
    (∀ v : JVal, isValidADF (textToADF v) = true) ∧
    (∀ textNodes : List TextNodeInput, isValidADF (createFormattedADF textNodes) = true) ∧
    (∀ items : JVal, isValidADF (createBulletListADF items) = true) ∧
    (∀ items : JVal, isValidADF (createOrderedListADF items) = true) ∧
    (∀ (headingText : String) (level : Int) (content : String),
      isValidADF (createHeadingWithContentADF headingText level content) = true) ∧
    (∀ code language : String, isValidADF (createCodeBlockADF code language) = true) ∧
    (∀ text url : String, isValidADF (createLinkADF text url) = true) ∧
    (∀ blocks : List JVal, isValidADF (combineADFContent blocks) = true) := by
  refine ⟨textToADF_isValid, fun tn => isValidADF_mkDoc _, ?_, ?_,
    fun h lvl c => isValidADF_mkDoc _, fun c l => isValidADF_mkDoc _,
    fun t u => isValidADF_mkDoc _, fun b => isValidADF_mkDoc _⟩
  · intro items
    cases items
    case jarr its =>
      simp only [createBulletListADF]
      split
      · exact textToADF_isValid (JVal.jstr "")
      · exact isValidADF_mkDoc _
    all_goals exact textToADF_isValid (JVal.jstr "")
  · intro items
    cases items
    case jarr its =>
      simp only [createOrderedListADF]
      split
      · exact textToADF_isValid (JVal.jstr "")
      · exact isValidADF_mkDoc _
    all_goals exact textToADF_isValid (JVal.jstr "")

/-- Claim C7 witness: the validator accepts concrete documents from the
builders through the main theorem. -/
theorem documentBuilder_isValid_witness :
    isValidADF (createLinkADF "docs" "https://example.test") = true ∧
    isValidADF (createBulletListADF (JVal.jstr "not an array")) = true ∧
    isValidADF (createHeadingWithContentADF "Title" 9 "")  = true := by
  exact ⟨documentBuilder_isValid.2.2.2.2.2.2.1 "docs" "https://example.test",
    documentBuilder_isValid.2.2.1 (JVal.jstr "not an array"),
    documentBuilder_isValid.2.2.2.2.1 "Title" 9 ""⟩

/-- Claim C10: `mapGitHubIssueToJiraFields` normalizes the labels array (a
string entry is kept, an object entry contributes its `name`, an absent array
yields `[]`), echoes that normalized list in the result, and computes
`issueType`, `priority` and `components` from the normalized labels and the
issue via the classifier functions. -/
theorem mapFields_normalization (issue : GHIssue) (config : Option MappingConfig) :
    ((mapGitHubIssueToJiraFields issue config).labels =
      (match issue.labels with
       | some ls => ls.map labelName
       | none => [])) ∧
    (issue.labels = none → (mapGitHubIssueToJiraFields issue config).labels = []) ∧
    ((mapGitHubIssueToJiraFields issue config).issueType =
      mapGitHubLabelsToJiraIssueType ((mapGitHubIssueToJiraFields issue config).labels)
        config) ∧
    ((mapGitHubIssueToJiraFields issue config).priority = mapPriority issue) ∧
    ((mapGitHubIssueToJiraFields issue config).components =
      extractComponents (issue.body.getD "")) := by
  refine ⟨rfl, ?_, rfl, rfl, rfl⟩
  intro h
  have h1 : (mapGitHubIssueToJiraFields issue config).labels =
      (match issue.labels with
       | some ls => ls.map labelName
       | none => []) := rfl
  rw [h1, h]

/-- Claim C10 witness: mixed string and object label entries normalize to
their names, through the main theorem. -/
theorem mapFields_normalization_witness :
    (mapGitHubIssueToJiraFields
      ⟨some "t", some "b", some [LabelEntry.lstr "bug", LabelEntry.lobj "ui"]⟩ none).labels =
      ["bug", "ui"] ∧
    (mapGitHubIssueToJiraFields ⟨some "t", some "b", none⟩ none).labels = [] := by
  refine ⟨?_, ?_⟩
  · exact (mapFields_normalization
      ⟨some "t", some "b", some [LabelEntry.lstr "bug", LabelEntry.lobj "ui"]⟩ none).1.trans
      (by rfl)
  · exact (mapFields_normalization ⟨some "t", some "b", none⟩ none).2.1 rfl

/-- Claim C8: `createGitHubIssueADF` emits, in this fixed order, the link
paragraph (the literal `"Original GitHub Issue: "` followed by a text node
showing the url with a `link` mark to that url), the `"Created by"` paragraph,
the `"Created at"` paragraph and a rule; then the labels, issue-type and
priority paragraphs each exactly under its presence condition; then — only
when the body has non-whitespace content — a second rule followed by one
paragraph per retained body line. -/
theorem createGitHubIssueADF_block_sequence
    (githubUrl author createdAt body : String) (mi : MappingInfo) :
    createGitHubIssueADF githubUrl author createdAt body mi =
      JVal.jobj [("type", JVal.jstr "doc"), ("version", JVal.jnum 1),
        ("content", JVal.jarr (
          [JVal.jobj [("type", JVal.jstr "paragraph"), ("content", JVal.jarr [
              JVal.jobj [("type", JVal.jstr "text"),
                ("text", JVal.jstr "Original GitHub Issue: ")],
              JVal.jobj [("type", JVal.jstr "text"), ("text", JVal.jstr githubUrl),
                ("marks", JVal.jarr [JVal.jobj [("type", JVal.jstr "link"),
                  ("attrs", JVal.jobj [("href", JVal.jstr githubUrl)])]])]])],
           JVal.jobj [("type", JVal.jstr "paragraph"), ("content", JVal.jarr [
              JVal.jobj [("type", JVal.jstr "text"),
                ("text", JVal.jstr (String.append "Created by: " author))]])],
           JVal.jobj [("type", JVal.jstr "paragraph"), ("content", JVal.jarr [
              JVal.jobj [("type", JVal.jstr "text"),
                ("text", JVal.jstr (String.append "Created at: " createdAt))]])],
           JVal.jobj [("type", JVal.jstr "rule")]] ++
          (match mi.labels with
           | some ls =>
             if 0 < ls.length then
               [JVal.jobj [("type", JVal.jstr "paragraph"), ("content", JVal.jarr [
                  JVal.jobj [("type", JVal.jstr "text"),
                    ("text", JVal.jstr (String.append "GitHub Labels: "
                      (String.intercalate ", " ls))),
                    ("marks", JVal.jarr [JVal.jobj [("type", JVal.jstr "em")]])]])]]
             else []
           | none => []) ++
          (match mi.issueType with
           | some t =>
             if t ≠ "" then
               [JVal.jobj [("type", JVal.jstr "paragraph"), ("content", JVal.jarr [
                  JVal.jobj [("type", JVal.jstr "text"),
                    ("text", JVal.jstr (String.append "Mapped to Issue Type: " t)),
                    ("marks", JVal.jarr [JVal.jobj [("type", JVal.jstr "em")]])]])]]
             else []
           | none => []) ++
          (match mi.priority with
           | some p =>
             if p ≠ "" then
               [JVal.jobj [("type", JVal.jstr "paragraph"), ("content", JVal.jarr [
                  JVal.jobj [("type", JVal.jstr "text"),
                    ("text", JVal.jstr (String.append "Priority: " p)),
                    ("marks", JVal.jarr [JVal.jobj [("type", JVal.jstr "em")]])]])]]
             else []
           | none => []) ++
          (if body ≠ "" && jsTrimS body ≠ "" then [JVal.jobj [("type", JVal.jstr "rule")]]
           else []) ++
          (if body ≠ "" && jsTrimS body ≠ "" then
            ((jsSplitNewline body).filter (fun line => jsTrimS line ≠ "")).map
              (fun line => JVal.jobj [("type", JVal.jstr "paragraph"),
                ("content", JVal.jarr [JVal.jobj [("type", JVal.jstr "text"),
                  ("text", JVal.jstr (jsTrimS line))]])])
           else [])))] :=
  rfl

/-- Claim C8 witness: with no labels and no issue type, a priority, and a
two-line body with one blank line, the emitted sequence is the four fixed
blocks, the priority paragraph, the second rule and the two body paragraphs. -/
theorem createGitHubIssueADF_block_sequence_witness :
    createGitHubIssueADF "https://github.test/i/1" "octocat" "2023-01-01"
      "Hello\n  \nWorld" ⟨none, none, some "High"⟩ =
      mkDoc [
        JVal.jobj [("type", JVal.jstr "paragraph"), ("content", JVal.jarr [
          JVal.jobj [("type", JVal.jstr "text"), ("text", JVal.jstr "Original GitHub Issue: ")],
          JVal.jobj [("type", JVal.jstr "text"), ("text", JVal.jstr "https://github.test/i/1"),
            ("marks", JVal.jarr [JVal.jobj [("type", JVal.jstr "link"),
              ("attrs", JVal.jobj [("href", JVal.jstr "https://github.test/i/1")])]])]])],
        paragraphOf [textNode "Created by: octocat"],
        paragraphOf [textNode "Created at: 2023-01-01"],
        ruleBlock,
        paragraphOf [emTextNode "Priority: High"],
        ruleBlock,
        paragraphOf [textNode "Hello"],
        paragraphOf [textNode "World"]] := by
  exact (createGitHubIssueADF_block_sequence "https://github.test/i/1" "octocat" "2023-01-01"
    "Hello\n  \nWorld" ⟨none, none, some "High"⟩).trans (by rfl)

/-- Claim C9: every retained line is trimmed before it is emitted — in
`textToADF` the paragraph for each surviving line carries `jsTrimS line`, and
in the body section of `createGitHubIssueADF` (present exactly when the body
has non-whitespace content) each body paragraph likewise carries the trimmed
line, never the raw one. -/
theorem trimmed_line_nodes (s githubUrl author createdAt : String) (mi : MappingInfo) :
    ((jsSplitNewline s).filter (fun line => jsTrimS line ≠ "") ≠ [] →
      textToADF (JVal.jstr s) =
        mkDoc (((jsSplitNewline s).filter (fun line => jsTrimS line ≠ "")).map
          (fun line => paragraphOf [textNode (jsTrimS line)]))) ∧
    (s ≠ "" → jsTrimS s ≠ "" →
      ∃ front, createGitHubIssueADF githubUrl author createdAt s mi =
        mkDoc (front ++ ruleBlock ::
          ((jsSplitNewline s).filter (fun line => jsTrimS line ≠ "")).map
            (fun line => paragraphOf [textNode (jsTrimS line)]))) := by
  constructor
  · intro h
    have hs : s ≠ "" := by
      rintro rfl
      exact h rfl
    exact textToADF_jstr_retained s hs h
  · intro hs hst
    have hcond : (decide (s ≠ "") && decide (jsTrimS s ≠ "")) = true := by
      simp [hs, hst]
    refine ⟨([JVal.jobj [("type", JVal.jstr "paragraph"), ("content", JVal.jarr [
        JVal.jobj [("type", JVal.jstr "text"),
          ("text", JVal.jstr "Original GitHub Issue: ")],
        JVal.jobj [("type", JVal.jstr "text"), ("text", JVal.jstr githubUrl),
          ("marks", JVal.jarr [JVal.jobj [("type", JVal.jstr "link"),
            ("attrs", JVal.jobj [("href", JVal.jstr githubUrl)])]])]])],
      paragraphOf [textNode (String.append "Created by: " author)],
      paragraphOf [textNode (String.append "Created at: " createdAt)],
      ruleBlock] ++
      (match mi.labels with
       | some ls =>
         if 0 < ls.length then
           [paragraphOf [emTextNode (String.append "GitHub Labels: "
             (String.intercalate ", " ls))]]
         else []
       | none => []) ++
      (match mi.issueType with
       | some t =>
         if t ≠ "" then [paragraphOf [emTextNode (String.append "Mapped to Issue Type: " t)]]
         else []
       | none => []) ++
      (match mi.priority with
       | some p =>
         if p ≠ "" then [paragraphOf [emTextNode (String.append "Priority: " p)]]
         else []
       | none => [])), ?_⟩
    simp only [createGitHubIssueADF, hcond, if_true]
    simp [List.append_assoc]

/-- Claim C9 witness: padded lines come out trimmed through the main theorem,
both in `textToADF` and in the body section of the assembler. -/
theorem trimmed_line_nodes_witness :
    textToADF (JVal.jstr "  padded  \nplain") =
      mkDoc [paragraphOf [textNode "padded"], paragraphOf [textNode "plain"]] ∧
    ∃ front, createGitHubIssueADF "u" "a" "c" "  padded  \nplain" ⟨none, none, none⟩ =
      mkDoc (front ++ ruleBlock ::
        [paragraphOf [textNode "padded"], paragraphOf [textNode "plain"]]) := by
  constructor
  · exact ((trimmed_line_nodes "  padded  \nplain" "u" "a" "c" ⟨none, none, none⟩).1
      (by decide)).trans (by rfl)
  · obtain ⟨front, hfront⟩ := (trimmed_line_nodes "  padded  \nplain" "u" "a" "c"
      ⟨none, none, none⟩).2 (by decide) (by decide)
    exact ⟨front, hfront.trans (by rfl)⟩
